import Mathlib

/-!
Verification development for the Smart Task Analyzer priority scoring and
ranking engine.  The repository ships the engine's documentation (README)
and the frontend `script.js`; the Django backend implementing the engine is
not part of the source tree, so the engine components are modelled from the
specification.  Frontend helpers (`parseDependencies`, the suggestion-count
coercion) are translated directly from `src/frontend/script.js`.

Scores are rationals (`ℚ`); calendar dates are abstracted to `dueInDays`,
the signed number of whole days between the evaluation date ("today") and
the due date, which is the only quantity the urgency scorer consumes.
-/

namespace TaskAnalyzer

/-- Modelled from the spec: a Task record (§3).  Identity is an opaque id;
attributes are due date (abstracted to days-until-due), estimated effort in
hours, importance 1–10, and the list of ids this task depends on.  Title is
display-only and omitted. -/
structure Task where
  id : Int
  dueInDays : Int
  estimatedHours : ℚ
  importance : Int
  dependencies : List Int
deriving Repr, DecidableEq

/-- Modelled from the spec: urgency factor scorer (§4.2).  `d` is days until
due (negative if overdue).  The 3–7, 7–14 and 14–30 day bands use the linear
interpolation the spec prescribes (monotonic, matching the stated band
endpoints); the `d > 30` branch is a logarithmic decay toward a low floor,
always strictly below 3.6 and never reaching 0. -/
def urgencyScore (d : Int) : ℚ :=
  if d < 0 then min 15 (10 + (1/2) * (|d| : ℚ))
  else if d = 0 then 10
  else if d ≤ 3 then 9
  else if d ≤ 7 then 35/4 - ((d : ℚ) - 4) * (7/12)
  else if d ≤ 14 then 13/2 - ((d : ℚ) - 8) * (7/30)
  else if d ≤ 30 then 9/2 - ((d : ℚ) - 15) * (3/50)
  else max (1/2) (7/2 - (3/10) * (Nat.log 2 (d - 30).toNat : ℚ))

/-- Modelled from the spec: importance factor scorer (§4.2) — the raw 1–10
user rating, used as-is. -/
def importanceScore (i : Int) : ℚ := (i : ℚ)

/-- Modelled from the spec: effort factor scorer (§4.2), inverse of the
estimated hours `h`; bands interpolated linearly with the stated endpoints,
and a logarithmic decay from 5.0 toward a floor of 1.0 for `h ≥ 8`. -/
def effortScore (h : ℚ) : ℚ :=
  if h < 1 then 10
  else if h < 2 then 9
  else if h < 4 then 8 - (h - 2) * (3/4)
  else if h < 8 then 6 - (h - 4) * (1/4)
  else max 1 (5 - (1/2) * (Nat.log 2 (⌊h⌋.toNat / 8) : ℚ))

/-- Modelled from the spec: dependency factor scorer (§4.2), a step function
of the blocks count `b` with a never-zero baseline. -/
def dependencyScore (b : Nat) : ℚ :=
  if 3 ≤ b then 10
  else if b = 2 then 8
  else if b = 1 then 6
  else 3

/-- Modelled from the spec: reverse-adjacency "blocks count" (§4.1) — the
number of tasks in the input set that list `i` as a direct dependency. -/
def blocksCount (tasks : List Task) (i : Int) : Nat :=
  (tasks.filter (fun t => decide (i ∈ t.dependencies))).length

/-- Modelled from the spec: the four built-in strategies (§4.3). -/
inductive Strategy where
  | smart_balance
  | fastest_wins
  | high_impact
  | deadline_driven
deriving Repr, DecidableEq

/-- A strategy's weight 4-tuple over (urgency, importance, effort,
dependency). -/
structure Weights where
  urgency : ℚ
  importance : ℚ
  effort : ℚ
  dependency : ℚ
deriving Repr, DecidableEq

/-- Modelled from the spec: the fixed strategy weight table (§4.3). -/
def weights : Strategy → Weights
  | .smart_balance => ⟨35/100, 30/100, 15/100, 20/100⟩
  | .fastest_wins => ⟨20/100, 20/100, 50/100, 10/100⟩
  | .high_impact => ⟨15/100, 60/100, 10/100, 15/100⟩
  | .deadline_driven => ⟨60/100, 20/100, 5/100, 15/100⟩

/-- The four built-in strategy names (also `STRATEGY_NAMES` keys in
`src/frontend/script.js`). -/
def strategyNames : List String :=
  ["smart_balance", "fastest_wins", "high_impact", "deadline_driven"]

/-- Modelled from the spec: strategy resolver (§4.3).  An absent name
selects the default `smart_balance`; an unknown name resolves to nothing
(surfaced as `InvalidStrategy` by the entry points), never a silent
fallback. -/
def resolveStrategy : Option String → Option Strategy
  | none => some .smart_balance
  | some name =>
    if name = "smart_balance" then some .smart_balance
    else if name = "fastest_wins" then some .fastest_wins
    else if name = "high_impact" then some .high_impact
    else if name = "deadline_driven" then some .deadline_driven
    else none

/-- Rounding to one decimal place, as the composite scorer prescribes
(§4.4, §6). -/
def round1 (q : ℚ) : ℚ := ((round (q * 10) : ℤ) : ℚ) / 10

/-- Ids present in the input set; dependency edges are restricted to
these (§4.1). -/
def presentIds (tasks : List Task) : List Int := tasks.map Task.id

/-- Modelled from the spec: forward adjacency of the dependency graph
(§4.1) — the ids `i` depends on, with dangling references silently
excluded. -/
def adjacency (tasks : List Task) (i : Int) : List Int :=
  match tasks.find? (fun t => t.id == i) with
  | some t => t.dependencies.filter (fun j => decide (j ∈ presentIds tasks))
  | none => []

/-- Bounded reachability along dependency edges: `reachB tasks fuel i j`
holds when a walk of at most `fuel` edges leads from `i` to `j`. -/
def reachB (tasks : List Task) : Nat → Int → Int → Bool
  | 0, _, _ => false
  | fuel + 1, i, j =>
    (adjacency tasks i).any (fun k => k == j || reachB tasks fuel k j)

/-- Modelled from the spec: the cycle detector's verdict for task id `i`
(§4.1) — `i` participates in a circular dependency chain, i.e. transitively
depends on itself.  A fuel of one more than the set size suffices for any
cycle (proved below). -/
def onCycle (tasks : List Task) (i : Int) : Bool :=
  reachB tasks (tasks.length + 1) i i

/-- Scored task (§3, §6): the original task, the four factor sub-scores
rounded to one decimal, the composite priority score, and the
circular-dependency flag.  Explanation text is display-only and omitted. -/
structure ScoredTask where
  task : Task
  urgency_score : ℚ
  importance_score : ℚ
  effort_score : ℚ
  dependency_score : ℚ
  priority_score : ℚ
  has_circular_dependency : Bool
deriving Repr, DecidableEq

/-- Modelled from the spec: the composite scorer's formula (§4.4) — the
weighted sum of the raw factor scores, rounded to one decimal. -/
def taskPriority (s : Strategy) (d imp : Int) (hrs : ℚ) (b : Nat) : ℚ :=
  let w := weights s
  round1 (urgencyScore d * w.urgency + importanceScore imp * w.importance +
    effortScore hrs * w.effort + dependencyScore b * w.dependency)

/-- Modelled from the spec: composite scorer (§4.4).  The composite is the
weighted sum of the raw factor scores, rounded to one decimal; the breakdown
fields are the factor scores rounded to one decimal. -/
def scoreTask (s : Strategy) (tasks : List Task) (t : Task) : ScoredTask :=
  { task := t
    urgency_score := round1 (urgencyScore t.dueInDays)
    importance_score := round1 (importanceScore t.importance)
    effort_score := round1 (effortScore t.estimatedHours)
    dependency_score := round1 (dependencyScore (blocksCount tasks t.id))
    priority_score :=
      taskPriority s t.dueInDays t.importance t.estimatedHours (blocksCount tasks t.id)
    has_circular_dependency := onCycle tasks t.id }

/-- Stable descending insertion: `x` is placed before the first element
whose priority score is not above `x`'s, so earlier-input elements precede
later ones on ties. -/
def insertByScore (x : ScoredTask) : List ScoredTask → List ScoredTask
  | [] => [x]
  | y :: ys =>
    if y.priority_score ≤ x.priority_score then x :: y :: ys
    else y :: insertByScore x ys

/-- Modelled from the spec: the ranker's stable descending sort by
composite priority score (§4.5). -/
def rankDesc : List ScoredTask → List ScoredTask
  | [] => []
  | x :: xs => insertByScore x (rankDesc xs)

/-- Modelled from the spec: the engine's error taxonomy (§7); each failure
carries a human-readable message. -/
inductive AnalyzerError where
  | invalidStrategy : String → AnalyzerError
  | noTasksAvailable : String → AnalyzerError
deriving Repr, DecidableEq

/-- Modelled from the spec: Analyze (§4.5, §6) — resolve the strategy,
reject an empty task set, otherwise return every task scored and stably
sorted in descending priority order. -/
def analyze (tasks : List Task) (strategy : Option String) :
    Except AnalyzerError (List ScoredTask) :=
  match resolveStrategy strategy with
  | none => .error (.invalidStrategy "Invalid strategy. Choose one of: smart_balance, fastest_wins, high_impact, deadline_driven.")
  | some s =>
    if tasks.isEmpty then
      .error (.noTasksAvailable "No tasks available to analyze. Please create tasks first.")
    else
      .ok (rankDesc (tasks.map (scoreTask s tasks)))

/-- A suggestion: a 1-based rank attached to a scored task (§4.5).
Recommendation text is display-only and omitted. -/
structure Suggestion where
  rank : Nat
  scored : ScoredTask
deriving Repr, DecidableEq

/-- Modelled from the spec: count handling for Suggest (§7) — a count that
is absent/non-numeric (`none`) or ≤ 0 is replaced by the default 3 rather
than rejected. -/
def effectiveCount : Option Int → Int
  | none => 3
  | some c => if c ≤ 0 then 3 else c

/-- Modelled from the spec: Suggest (§4.5, §6) — like Analyze but truncated
to the top N, N clamped to the task count, each entry carrying its 1-based
rank. -/
def suggest (tasks : List Task) (strategy : Option String) (count : Option Int) :
    Except AnalyzerError (List Suggestion) :=
  match resolveStrategy strategy with
  | none => .error (.invalidStrategy "Invalid strategy. Choose one of: smart_balance, fastest_wins, high_impact, deadline_driven.")
  | some s =>
    if tasks.isEmpty then
      .error (.noTasksAvailable "No tasks available for suggestions. Please create tasks first.")
    else
      let ranked := rankDesc (tasks.map (scoreTask s tasks))
      let n := min (effectiveCount count).toNat tasks.length
      .ok ((ranked.take n).enum.map (fun p => ⟨p.1 + 1, p.2⟩))

/-! Frontend helpers, translated from `src/frontend/script.js`. -/

/-- Numeric value of a run of decimal digits. -/
def decDigitsVal (l : List Char) : Nat :=
  l.foldl (fun a c => 10 * a + (c.toNat - 48)) 0

/-- Hexadecimal digit test. -/
def isHexDigit (c : Char) : Bool :=
  c.isDigit || ('a' ≤ c && c ≤ 'f') || ('A' ≤ c && c ≤ 'F')

/-- Value of one hexadecimal digit. -/
def hexVal (c : Char) : Nat :=
  if c.isDigit then c.toNat - 48
  else if 'a' ≤ c && c ≤ 'f' then c.toNat - 87
  else c.toNat - 55

/-- Numeric value of a run of hexadecimal digits. -/
def hexDigitsVal (l : List Char) : Nat :=
  l.foldl (fun a c => 16 * a + hexVal c) 0

/-- JavaScript `String.prototype.trim` over the character list: leading
and trailing whitespace removed. -/
def jsTrim (l : List Char) : List Char :=
  ((l.dropWhile Char.isWhitespace).reverse.dropWhile Char.isWhitespace).reverse

/-- JavaScript `String.prototype.split(',')` over the character list:
comma-separated tokens, preserving empty tokens. -/
def splitComma : List Char → List (List Char)
  | [] => [[]]
  | c :: rest =>
    if c = ',' then [] :: splitComma rest
    else
      match splitComma rest with
      | [] => [[c]]
      | t :: ts => (c :: t) :: ts

/-- JavaScript `parseInt` on an already-trimmed character list: an optional
sign, then either a `0x`/`0X` hexadecimal literal or a longest run of
decimal digits; no digits means `NaN`, modelled as `none`. -/
def jsParseInt (cs : List Char) : Option Int :=
  let sr : Int × List Char :=
    match cs with
    | '-' :: r => (-1, r)
    | '+' :: r => (1, r)
    | r => (1, r)
  match sr.2 with
  | '0' :: 'x' :: r =>
    let ds := r.takeWhile isHexDigit
    if ds = [] then none else some (sr.1 * (hexDigitsVal ds : Int))
  | '0' :: 'X' :: r =>
    let ds := r.takeWhile isHexDigit
    if ds = [] then none else some (sr.1 * (hexDigitsVal ds : Int))
  | r =>
    let ds := r.takeWhile Char.isDigit
    if ds = [] then none else some (sr.1 * (decDigitsVal ds : Int))

/-- `parseDependencies` from `src/frontend/script.js`: a blank input yields
the empty list; otherwise split on commas, parse each trimmed token with
`parseInt`, and drop the tokens that do not parse (`isNaN` filter). -/
def parseDependencies (input : String) : List Int :=
  if jsTrim input.toList = [] then []
  else (splitComma input.toList).filterMap (fun tok => jsParseInt (jsTrim tok))

/-- The optional-chaining guard `!input?.trim()` in `script.js`: a missing
input behaves like a blank one. -/
def parseDependenciesOpt : Option String → List Int
  | none => []
  | some s => parseDependencies s

/-- The suggestion-count coercion `parseInt(value) || 3` in
`handleSuggest` (`src/frontend/script.js`): `NaN` and `0` are falsy and
replaced by 3; any other parsed value passes through. -/
def frontendCount (v : String) : Int :=
  match jsParseInt (jsTrim v.toList) with
  | none => 3
  | some c => if c = 0 then 3 else c

/-! Concrete task sets used to instantiate the theorems. -/

/-- Three tasks whose dependencies form the cycle 1 → 2 → 3 → 1. -/
def cyc3Tasks : List Task :=
  [⟨1, 2, 3, 8, [2]⟩, ⟨2, 5, 1, 5, [3]⟩, ⟨3, 9, 10, 9, [1]⟩]

/-- Three tasks forming the acyclic chain 1 → 2 → 3. -/
def chain3Tasks : List Task :=
  [⟨1, 2, 3, 8, [2]⟩, ⟨2, 5, 1, 5, [3]⟩, ⟨3, 9, 10, 9, []⟩]

/-- A single task listing itself as a dependency. -/
def selfLoopTasks : List Task := [⟨1, 0, 1, 5, [1]⟩]

/-- A small set with two tasks of identical attributes (a guaranteed
priority-score tie between ids 1 and 2). -/
def demoTasks : List Task :=
  [⟨1, 2, 3, 8, []⟩, ⟨2, 2, 3, 8, []⟩, ⟨3, 40, 20, 2, []⟩]

/-! Helper lemmas. -/

/-- Rounding to one decimal is monotone. -/
theorem round1_mono {a b : ℚ} (hab : a ≤ b) : round1 a ≤ round1 b := by
  unfold round1
  have hfl : round (a * 10) ≤ round (b * 10) := by
    rw [round_eq, round_eq]
    exact Int.floor_mono (by linarith)
  have hc : ((round (a * 10) : ℤ) : ℚ) ≤ ((round (b * 10) : ℤ) : ℚ) :=
    Int.cast_le.mpr hfl
  exact (div_le_div_iff_of_pos_right (by norm_num)).mpr hc

/-- Rounding an integer value to one decimal leaves it unchanged. -/
theorem round1_int (n : ℤ) : round1 ((n : ℚ)) = n := by
  unfold round1
  have h : ((n : ℚ)) * 10 = ((n * 10 : ℤ) : ℚ) := by push_cast; ring
  rw [h, round_intCast]
  push_cast
  ring

/-- All four weights of every strategy are nonnegative. -/
theorem weights_nonneg (s : Strategy) :
    0 ≤ (weights s).urgency ∧ 0 ≤ (weights s).importance ∧
    0 ≤ (weights s).effort ∧ 0 ≤ (weights s).dependency := by
  cases s <;> refine ⟨?_, ?_, ?_, ?_⟩ <;> norm_num [weights]

/-- An unknown strategy name resolves to nothing. -/
theorem resolveStrategy_eq_none {name : String} (h : name ∉ strategyNames) :
    resolveStrategy (some name) = none := by
  simp only [strategyNames, List.mem_cons, List.not_mem_nil, or_false] at h
  push_neg at h
  obtain ⟨h1, h2, h3, h4⟩ := h
  simp [resolveStrategy, h1, h2, h3, h4]

/-- Branch evaluation of the urgency scorer on the 3–7 day band. -/
theorem urgency_band4 {d : Int} (h1 : 3 < d) (h2 : d ≤ 7) :
    urgencyScore d = 35/4 - ((d : ℚ) - 4) * (7/12) := by
  unfold urgencyScore
  rw [if_neg (by omega), if_neg (by omega), if_neg (by omega), if_pos h2]

/-- Branch evaluation of the urgency scorer on the 7–14 day band. -/
theorem urgency_band5 {d : Int} (h1 : 7 < d) (h2 : d ≤ 14) :
    urgencyScore d = 13/2 - ((d : ℚ) - 8) * (7/30) := by
  unfold urgencyScore
  rw [if_neg (by omega), if_neg (by omega), if_neg (by omega), if_neg (by omega),
    if_pos h2]

/-- Branch evaluation of the urgency scorer on the 14–30 day band. -/
theorem urgency_band6 {d : Int} (h1 : 14 < d) (h2 : d ≤ 30) :
    urgencyScore d = 9/2 - ((d : ℚ) - 15) * (3/50) := by
  unfold urgencyScore
  rw [if_neg (by omega), if_neg (by omega), if_neg (by omega), if_neg (by omega),
    if_neg (by omega), if_pos h2]

/-- Branch evaluation of the urgency scorer past 30 days. -/
theorem urgency_far {d : Int} (h : 30 < d) :
    urgencyScore d = max (1/2) (7/2 - (3/10) * (Nat.log 2 (d - 30).toNat : ℚ)) := by
  unfold urgencyScore
  rw [if_neg (by omega), if_neg (by omega), if_neg (by omega), if_neg (by omega),
    if_neg (by omega), if_neg (by omega)]

/-- Branch evaluation of the effort scorer on the 2–4 hour band. -/
theorem effort_band3 {g : ℚ} (h1 : 2 ≤ g) (h2 : g < 4) :
    effortScore g = 8 - (g - 2) * (3/4) := by
  unfold effortScore
  rw [if_neg (by linarith), if_neg (by linarith), if_pos h2]

/-- Branch evaluation of the effort scorer on the 4–8 hour band. -/
theorem effort_band4 {g : ℚ} (h1 : 4 ≤ g) (h2 : g < 8) :
    effortScore g = 6 - (g - 4) * (1/4) := by
  unfold effortScore
  rw [if_neg (by linarith), if_neg (by linarith), if_neg (by linarith), if_pos h2]

/-- Branch evaluation of the effort scorer past 8 hours. -/
theorem effort_band5 {g : ℚ} (h : 8 ≤ g) :
    effortScore g = max 1 (5 - (1/2) * (Nat.log 2 (⌊g⌋.toNat / 8) : ℚ)) := by
  unfold effortScore
  rw [if_neg (by linarith), if_neg (by linarith), if_neg (by linarith),
    if_neg (by linarith)]

/-- The logarithmic-decay expression never exceeds 5. -/
theorem max_log_le_5 (n : Nat) : max 1 (5 - (1/2) * (n : ℚ)) ≤ 5 := by
  refine max_le (by norm_num) ?_
  have : (0 : ℚ) ≤ (n : ℚ) := Nat.cast_nonneg _
  linarith

/-- The effort score never exceeds 10. -/
theorem effort_le_10 (g : ℚ) : effortScore g ≤ 10 := by
  unfold effortScore
  split_ifs with h1 h2 h3 h4
  · norm_num
  · norm_num
  · linarith
  · linarith
  · exact le_trans (max_log_le_5 _) (by norm_num)

/-- For at least one hour of effort, the score is at most 9. -/
theorem effort_le_9 {g : ℚ} (h : 1 ≤ g) : effortScore g ≤ 9 := by
  unfold effortScore
  split_ifs with h1 h2 h3 h4
  · linarith
  · norm_num
  · linarith
  · linarith
  · exact le_trans (max_log_le_5 _) (by norm_num)

/-- For at least four hours of effort, the score is at most 6. -/
theorem effort_le_6 {g : ℚ} (h : 4 ≤ g) : effortScore g ≤ 6 := by
  unfold effortScore
  split_ifs with h1 h2 h3 h4
  · linarith
  · linarith
  · linarith
  · linarith
  · exact le_trans (max_log_le_5 _) (by norm_num)

/-- For at least eight hours of effort, the score is at most 5. -/
theorem effort_le_5 {g : ℚ} (h : 8 ≤ g) : effortScore g ≤ 5 := by
  rw [effort_band5 h]
  exact max_log_le_5 _

/-- Monotone decay of the effort score within the logarithmic band. -/
theorem effort_band5_anti {g₁ g₂ : ℚ} (h1 : 8 ≤ g₁) (h2 : g₁ ≤ g₂) :
    effortScore g₂ ≤ effortScore g₁ := by
  rw [effort_band5 h1, effort_band5 (le_trans h1 h2)]
  refine max_le_max le_rfl ?_
  have hfl : ⌊g₁⌋ ≤ ⌊g₂⌋ := Int.floor_mono h2
  have htn : ⌊g₁⌋.toNat ≤ ⌊g₂⌋.toNat := Int.toNat_le_toNat hfl
  have hdv : ⌊g₁⌋.toNat / 8 ≤ ⌊g₂⌋.toNat / 8 := Nat.div_le_div_right htn
  have hlog : Nat.log 2 (⌊g₁⌋.toNat / 8) ≤ Nat.log 2 (⌊g₂⌋.toNat / 8) :=
    Nat.log_mono_right hdv
  have hc : ((Nat.log 2 (⌊g₁⌋.toNat / 8) : ℚ)) ≤ (Nat.log 2 (⌊g₂⌋.toNat / 8) : ℚ) :=
    Nat.cast_le.mpr hlog
  linarith

/-- The effort score is non-increasing in the estimated hours. -/
theorem effortScore_anti {g₁ g₂ : ℚ} (h : g₁ ≤ g₂) :
    effortScore g₂ ≤ effortScore g₁ := by
  rcases lt_or_le g₁ 1 with hb | hb
  · have : effortScore g₁ = 10 := by unfold effortScore; rw [if_pos hb]
    rw [this]; exact effort_le_10 g₂
  rcases lt_or_le g₁ 2 with hb2 | hb2
  · have : effortScore g₁ = 9 := by
      unfold effortScore; rw [if_neg (by linarith), if_pos hb2]
    rw [this]; exact effort_le_9 (le_trans hb h)
  rcases lt_or_le g₁ 4 with hb3 | hb3
  · rw [effort_band3 hb2 hb3]
    rcases lt_or_le g₂ 4 with hc | hc
    · rw [effort_band3 (le_trans hb2 h) hc]; linarith
    · have := effort_le_6 hc; linarith
  rcases lt_or_le g₁ 8 with hb4 | hb4
  · rw [effort_band4 hb3 hb4]
    rcases lt_or_le g₂ 8 with hc | hc
    · rw [effort_band4 (le_trans hb3 h) hc]; linarith
    · have := effort_le_5 hc; linarith
  · exact effort_band5_anti hb4 h

/-- Blocks counts depend only on the ids and dependency lists of the task
set, not on any task's importance or estimated hours. -/
theorem blocksCount_congr :
    ∀ (l₁ l₂ : List Task),
      l₁.map (fun t => (t.id, t.dependencies)) = l₂.map (fun t => (t.id, t.dependencies)) →
      ∀ i, blocksCount l₁ i = blocksCount l₂ i := by
  intro l₁
  induction l₁ with
  | nil =>
    intro l₂ h i
    cases l₂ with
    | nil => rfl
    | cons u us => simp at h
  | cons t ts ih =>
    intro l₂ h i
    cases l₂ with
    | nil => simp at h
    | cons u us =>
      simp only [List.map_cons, List.cons.injEq, Prod.mk.injEq] at h
      obtain ⟨⟨hid, hdep⟩, htail⟩ := h
      have htl := ih us htail i
      unfold blocksCount at htl ⊢
      simp only [List.filter_cons, hdep]
      split
      · simp only [List.length_cons, htl]
      · exact htl

/-! Claim theorems. -/

/-- C1: the urgency score is a function of `d`, the days until due
(negative if overdue): `d < 0` gives min(15, 10 + 0.5·|d|); `d = 0` gives
10; `0 < d ≤ 3` gives 9; `3 < d ≤ 7` lies in [7, 8.75] and is higher the
closer to today; `7 < d ≤ 14` lies in [5.1, 6.5]; `14 < d ≤ 30` lies in
[3.6, 4.5]; and `d > 30` decays (non-increasingly, via a logarithm of `d`),
staying strictly below 3.6 and never reaching 0. -/
theorem urgencyScore_spec (d e : Int) :
    (d < 0 → urgencyScore d = min 15 (10 + (1/2) * (|d| : ℚ))) ∧
    (d = 0 → urgencyScore d = 10) ∧
    (0 < d → d ≤ 3 → urgencyScore d = 9) ∧
    (3 < d → d ≤ 7 → 7 ≤ urgencyScore d ∧ urgencyScore d ≤ 35/4) ∧
    (7 < d → d ≤ 14 → 51/10 ≤ urgencyScore d ∧ urgencyScore d ≤ 13/2) ∧
    (14 < d → d ≤ 30 → 18/5 ≤ urgencyScore d ∧ urgencyScore d ≤ 9/2) ∧
    (30 < d → 0 < urgencyScore d ∧ urgencyScore d < 18/5) ∧
    (3 < d → d ≤ e → e ≤ 7 → urgencyScore e ≤ urgencyScore d) ∧
    (30 < d → d ≤ e → urgencyScore e ≤ urgencyScore d) := by
  refine ⟨?_, ?_, ?_, ?_, ?_, ?_, ?_, ?_, ?_⟩
  · intro h; unfold urgencyScore; rw [if_pos h]
  · rintro rfl; unfold urgencyScore; norm_num
  · intro h1 h2; unfold urgencyScore
    rw [if_neg (by omega), if_neg (by omega), if_pos h2]
  · intro h1 h2
    rw [urgency_band4 h1 h2]
    have h4 : (4 : ℚ) ≤ (d : ℚ) := by exact_mod_cast (by omega : (4 : Int) ≤ d)
    have h7 : (d : ℚ) ≤ 7 := by exact_mod_cast h2
    constructor <;> linarith
  · intro h1 h2
    rw [urgency_band5 h1 h2]
    have h8 : (8 : ℚ) ≤ (d : ℚ) := by exact_mod_cast (by omega : (8 : Int) ≤ d)
    have h14 : (d : ℚ) ≤ 14 := by exact_mod_cast h2
    constructor <;> linarith
  · intro h1 h2
    rw [urgency_band6 h1 h2]
    have h15 : (15 : ℚ) ≤ (d : ℚ) := by exact_mod_cast (by omega : (15 : Int) ≤ d)
    have h30 : (d : ℚ) ≤ 30 := by exact_mod_cast h2
    constructor <;> linarith
  · intro h
    rw [urgency_far h]
    constructor
    · exact lt_of_lt_of_le (by norm_num) (le_max_left _ _)
    · have hlog : (0 : ℚ) ≤ (Nat.log 2 (d - 30).toNat : ℚ) := Nat.cast_nonneg _
      have := mul_nonneg (by norm_num : (0 : ℚ) ≤ 3/10) hlog
      exact max_lt (by norm_num) (by linarith)
  · intro h1 h2 h3
    rw [urgency_band4 h1 (by omega), urgency_band4 (by omega) h3]
    have hde : (d : ℚ) ≤ (e : ℚ) := by exact_mod_cast h2
    linarith
  · intro h1 h2
    rw [urgency_far h1, urgency_far (by omega)]
    refine max_le_max le_rfl ?_
    have hlog : Nat.log 2 (d - 30).toNat ≤ Nat.log 2 (e - 30).toNat :=
      Nat.log_mono_right (by omega)
    have hc : ((Nat.log 2 (d - 30).toNat : ℚ)) ≤ (Nat.log 2 (e - 30).toNat : ℚ) :=
      Nat.cast_le.mpr hlog
    linarith

/-- Witness for C1: concrete days in every band, plus the in-band and
far-band monotonicity at concrete pairs. -/
theorem urgencyScore_spec_witness :
    urgencyScore (-20) = min 15 (10 + (1/2) * (|(-20 : Int)| : ℚ)) ∧
    urgencyScore 0 = 10 ∧
    urgencyScore 2 = 9 ∧
    (7 ≤ urgencyScore 5 ∧ urgencyScore 5 ≤ 35/4) ∧
    (51/10 ≤ urgencyScore 10 ∧ urgencyScore 10 ≤ 13/2) ∧
    (18/5 ≤ urgencyScore 20 ∧ urgencyScore 20 ≤ 9/2) ∧
    (0 < urgencyScore 40 ∧ urgencyScore 40 < 18/5) ∧
    urgencyScore 6 ≤ urgencyScore 5 ∧
    urgencyScore 50 ≤ urgencyScore 40 :=
  ⟨(urgencyScore_spec (-20) 0).1 (by norm_num),
    (urgencyScore_spec 0 0).2.1 rfl,
    (urgencyScore_spec 2 0).2.2.1 (by norm_num) (by norm_num),
    (urgencyScore_spec 5 0).2.2.2.1 (by norm_num) (by norm_num),
    (urgencyScore_spec 10 0).2.2.2.2.1 (by norm_num) (by norm_num),
    (urgencyScore_spec 20 0).2.2.2.2.2.1 (by norm_num) (by norm_num),
    (urgencyScore_spec 40 0).2.2.2.2.2.2.1 (by norm_num),
    (urgencyScore_spec 5 6).2.2.2.2.2.2.2.1 (by norm_num) (by norm_num) (by norm_num),
    (urgencyScore_spec 40 50).2.2.2.2.2.2.2.2 (by norm_num) (by norm_num)⟩

/-- C2: there are exactly four built-in strategies — smart_balance (the
default), fastest_wins, high_impact and deadline_driven — resolving to the
fixed weight 4-tuples (0.35, 0.30, 0.15, 0.20), (0.20, 0.20, 0.50, 0.10),
(0.15, 0.60, 0.10, 0.15) and (0.60, 0.20, 0.05, 0.15) over (urgency,
importance, effort, dependency), each summing to 1.0 within 1e-9. -/
theorem strategies_spec (name : String) :
    resolveStrategy none = some Strategy.smart_balance ∧
    ((resolveStrategy (some name)).isSome ↔ name ∈ strategyNames) ∧
    weights .smart_balance = ⟨35/100, 30/100, 15/100, 20/100⟩ ∧
    weights .fastest_wins = ⟨20/100, 20/100, 50/100, 10/100⟩ ∧
    weights .high_impact = ⟨15/100, 60/100, 10/100, 15/100⟩ ∧
    weights .deadline_driven = ⟨60/100, 20/100, 5/100, 15/100⟩ ∧
    ∀ s : Strategy,
      |(weights s).urgency + (weights s).importance + (weights s).effort +
        (weights s).dependency - 1| ≤ 1/1000000000 := by
  refine ⟨rfl, ?_, rfl, rfl, rfl, rfl, ?_⟩
  · constructor
    · intro h
      simp only [resolveStrategy] at h
      by_cases h1 : name = "smart_balance"
      · simp [strategyNames, h1]
      by_cases h2 : name = "fastest_wins"
      · simp [strategyNames, h2]
      by_cases h3 : name = "high_impact"
      · simp [strategyNames, h3]
      by_cases h4 : name = "deadline_driven"
      · simp [strategyNames, h4]
      simp [h1, h2, h3, h4] at h
    · intro h
      simp only [strategyNames, List.mem_cons, List.not_mem_nil, or_false] at h
      rcases h with h | h | h | h <;> simp [resolveStrategy, h]
  · intro s
    cases s <;> norm_num [weights]

/-- C3: the dependency score is determined only by the blocks count `b`
(the number of tasks in the same input set listing the task as a direct
dependency): 0 → 3.0, 1 → 6.0, 2 → 8.0, ≥ 3 → 10.0, hence never 0. -/
theorem dependencyScore_spec (tasks : List Task) (s : Strategy) (t : Task) (b : Nat) :
    (scoreTask s tasks t).dependency_score = dependencyScore (blocksCount tasks t.id) ∧
    blocksCount tasks t.id =
      (tasks.filter (fun u => decide (t.id ∈ u.dependencies))).length ∧
    (b = 0 → dependencyScore b = 3) ∧
    (b = 1 → dependencyScore b = 6) ∧
    (b = 2 → dependencyScore b = 8) ∧
    (3 ≤ b → dependencyScore b = 10) ∧
    0 < dependencyScore b := by
  have hint : ∀ m : Nat, round1 (dependencyScore m) = dependencyScore m := by
    intro m
    rcases Nat.lt_or_ge m 3 with h | h
    · interval_cases m <;>
        · simp only [dependencyScore]
          norm_num
          exact_mod_cast round1_int _
    · simp only [dependencyScore, if_pos h]
      exact_mod_cast round1_int 10
  refine ⟨hint (blocksCount tasks t.id), rfl, ?_, ?_, ?_, ?_, ?_⟩
  · rintro rfl; rfl
  · rintro rfl; rfl
  · rintro rfl; rfl
  · intro h; simp only [dependencyScore, if_pos h]
  · rcases Nat.lt_or_ge b 3 with h | h
    · interval_cases b <;> norm_num [dependencyScore]
    · simp only [dependencyScore, if_pos h]; norm_num

/-- Witness for C3 at concrete inputs: in `cyc3Tasks`, task 1 is listed as
a dependency by exactly one task, and the band equations hold at
b = 0, 1, 2, 3. -/
theorem dependencyScore_spec_witness :
    (scoreTask .smart_balance cyc3Tasks ⟨1, 2, 3, 8, [2]⟩).dependency_score =
      dependencyScore (blocksCount cyc3Tasks 1) ∧
    dependencyScore 0 = 3 ∧ dependencyScore 1 = 6 ∧
    dependencyScore 2 = 8 ∧ dependencyScore 3 = 10 := by
  refine ⟨(dependencyScore_spec cyc3Tasks .smart_balance ⟨1, 2, 3, 8, [2]⟩ 0).1, ?_, ?_, ?_, ?_⟩
  · exact (dependencyScore_spec cyc3Tasks .smart_balance ⟨1, 2, 3, 8, [2]⟩ 0).2.2.1 rfl
  · exact (dependencyScore_spec cyc3Tasks .smart_balance ⟨1, 2, 3, 8, [2]⟩ 1).2.2.2.1 rfl
  · exact (dependencyScore_spec cyc3Tasks .smart_balance ⟨1, 2, 3, 8, [2]⟩ 2).2.2.2.2.1 rfl
  · exact (dependencyScore_spec cyc3Tasks .smart_balance ⟨1, 2, 3, 8, [2]⟩ 3).2.2.2.2.2.1 (by norm_num)

/-- C6: for every strategy (any name the resolver accepts, including the
absent-name default), Analyze and Suggest on an empty task set fail with a
`NoTasksAvailable` error carrying a nonempty descriptive message. -/
theorem emptyTasks_noTasksAvailable (name : Option String) (s : Strategy)
    (c : Option Int) (h : resolveStrategy name = some s) :
    (∃ m, analyze [] name = .error (.noTasksAvailable m) ∧ m ≠ "") ∧
    (∃ m, suggest [] name c = .error (.noTasksAvailable m) ∧ m ≠ "") := by
  unfold analyze suggest
  rw [h]
  exact ⟨⟨_, rfl, by decide⟩, ⟨_, rfl, by decide⟩⟩

/-- Witness for C6: the default strategy with an empty task set. -/
theorem emptyTasks_noTasksAvailable_witness :
    (∃ m, analyze [] (some "smart_balance") = .error (.noTasksAvailable m) ∧ m ≠ "") ∧
    (∃ m, suggest [] (some "smart_balance") (some 3) =
      .error (.noTasksAvailable m) ∧ m ≠ "") :=
  emptyTasks_noTasksAvailable (some "smart_balance") .smart_balance (some 3) rfl

/-- C7: for every task list and every strategy name outside the four
built-in names, Analyze and Suggest fail with an `InvalidStrategy` error
and never return a task list. -/
theorem unknownStrategy_invalidStrategy (tasks : List Task) (name : String)
    (c : Option Int) (h : name ∉ strategyNames) :
    (∃ m, analyze tasks (some name) = .error (.invalidStrategy m)) ∧
    (∃ m, suggest tasks (some name) c = .error (.invalidStrategy m)) ∧
    (∀ out, analyze tasks (some name) ≠ .ok out) ∧
    (∀ out, suggest tasks (some name) c ≠ .ok out) := by
  have hr := resolveStrategy_eq_none h
  unfold analyze suggest
  rw [hr]
  exact ⟨⟨_, rfl⟩, ⟨_, rfl⟩, fun out => by simp, fun out => by simp⟩

/-- Witness for C7: the literal name used by the spec's test scenario. -/
theorem unknownStrategy_invalidStrategy_witness :
    (∃ m, analyze cyc3Tasks (some "unknown_strategy") = .error (.invalidStrategy m)) ∧
    (∃ m, suggest cyc3Tasks (some "unknown_strategy") (some 3) =
      .error (.invalidStrategy m)) ∧
    (∀ out, analyze cyc3Tasks (some "unknown_strategy") ≠ .ok out) ∧
    (∀ out, suggest cyc3Tasks (some "unknown_strategy") (some 3) ≠ .ok out) :=
  unknownStrategy_invalidStrategy cyc3Tasks "unknown_strategy" (some 3) (by decide)

/-- C8: a Suggest count that is non-numeric (`none`) or ≤ 0 is replaced by
the default 3 — the call behaves exactly as with count 3 — and with a valid
strategy and a nonempty task set it proceeds to a successful result rather
than failing. -/
theorem suggest_count_default (tasks : List Task) (name : Option String)
    (s : Strategy) (c : Option Int) (hs : resolveStrategy name = some s)
    (hne : tasks ≠ []) (hc : c = none ∨ ∃ k, c = some k ∧ k ≤ 0) :
    suggest tasks name c = suggest tasks name (some 3) ∧
    ∃ out, suggest tasks name c = .ok out := by
  have hcount : effectiveCount c = 3 := by
    rcases hc with rfl | ⟨k, rfl, hk⟩
    · rfl
    · simp [effectiveCount, if_pos hk]
  have hc3 : effectiveCount (some 3) = 3 := by norm_num [effectiveCount]
  constructor
  · simp only [suggest, hs, hcount, hc3]
  · simp only [suggest, hs, hcount,
      if_neg (show ¬tasks.isEmpty = true by simpa [List.isEmpty_iff] using hne)]
    exact ⟨_, rfl⟩

/-- Witness for C8: a negative count over a concrete two-task set. -/
theorem suggest_count_default_witness :
    suggest demoTasks (some "smart_balance") (some (-2)) =
      suggest demoTasks (some "smart_balance") (some 3) ∧
    ∃ out, suggest demoTasks (some "smart_balance") (some (-2)) = .ok out :=
  suggest_count_default demoTasks (some "smart_balance") .smart_balance (some (-2))
    rfl (by decide) (Or.inr ⟨-2, rfl, by norm_num⟩)

/-- C10: `parseDependencies` is total and never fails: a missing or
whitespace-only input yields `[]`, otherwise the input is split on commas,
each trimmed token is parsed with JavaScript `parseInt`, and every token
that does not parse to a number is silently dropped (every returned value
comes from a token that parses). -/
theorem parseDependencies_spec (s : String) :
    parseDependenciesOpt none = [] ∧
    (jsTrim s.toList = [] → parseDependencies s = []) ∧
    (jsTrim s.toList ≠ [] → parseDependencies s =
      (splitComma s.toList).filterMap (fun tok => jsParseInt (jsTrim tok))) ∧
    ∀ x ∈ parseDependencies s,
      ∃ tok ∈ splitComma s.toList, jsParseInt (jsTrim tok) = some x := by
  refine ⟨rfl, ?_, ?_, ?_⟩
  · intro h; unfold parseDependencies; rw [if_pos h]
  · intro h; unfold parseDependencies; rw [if_neg h]
  · intro x hx
    unfold parseDependencies at hx
    split at hx
    · simp at hx
    · obtain ⟨tok, htok, hparse⟩ := List.mem_filterMap.mp hx
      exact ⟨tok, htok, hparse⟩

/-- Witness for C10 at concrete inputs: blank input, a mixed token list,
and a value traced back to its token. -/
theorem parseDependencies_spec_witness :
    parseDependencies " " = [] ∧
    parseDependencies "1, 2x, foo" =
      (splitComma "1, 2x, foo".toList).filterMap (fun tok => jsParseInt (jsTrim tok)) ∧
    ∃ tok ∈ splitComma "1, 2x, foo".toList, jsParseInt (jsTrim tok) = some 1 := by
  refine ⟨(parseDependencies_spec " ").2.1 (by decide),
    (parseDependencies_spec "1, 2x, foo").2.2.1 (by decide),
    (parseDependencies_spec "1, 2x, foo").2.2.2 1 (by decide)⟩

/-- C9: holding the task set, strategy and all other attributes fixed, the
composite priority score is non-decreasing in importance and non-increasing
in estimated hours.  The last two conjuncts tie `taskPriority` to the
pipeline: it is exactly the priority the scorer assigns, and the blocks
count feeding it is unchanged by any edit to importance or hours. -/
theorem composite_monotone (s : Strategy) (d : Int) (b : Nat) (j j₁ j₂ : Int)
    (g g₁ g₂ : ℚ) :
    (j₁ ≤ j₂ → taskPriority s d j₁ g b ≤ taskPriority s d j₂ g b) ∧
    (g₁ ≤ g₂ → taskPriority s d j g₂ b ≤ taskPriority s d j g₁ b) ∧
    (∀ (tasks : List Task) (t : Task),
      (scoreTask s tasks t).priority_score =
        taskPriority s t.dueInDays t.importance t.estimatedHours (blocksCount tasks t.id)) ∧
    (∀ (l₁ l₂ : List Task) (i : Int),
      l₁.map (fun t => (t.id, t.dependencies)) = l₂.map (fun t => (t.id, t.dependencies)) →
      blocksCount l₁ i = blocksCount l₂ i) := by
  obtain ⟨hwu, hwi, hwe, hwd⟩ := weights_nonneg s
  refine ⟨?_, ?_, fun tasks t => rfl, fun l₁ l₂ i h => blocksCount_congr l₁ l₂ h i⟩
  · intro hj
    unfold taskPriority
    apply round1_mono
    have hcast : ((j₁ : ℚ)) ≤ (j₂ : ℚ) := Int.cast_le.mpr hj
    have := mul_le_mul_of_nonneg_right hcast hwi
    unfold importanceScore
    linarith
  · intro hg
    unfold taskPriority
    apply round1_mono
    have heff : effortScore g₂ ≤ effortScore g₁ := effortScore_anti hg
    have := mul_le_mul_of_nonneg_right heff hwe
    linarith

/-- Witness for C9: raising importance 5 → 8 does not lower the composite,
and raising hours 3 → 9 does not raise it, under the default strategy. -/
theorem composite_monotone_witness :
    taskPriority .smart_balance 2 5 3 1 ≤ taskPriority .smart_balance 2 8 3 1 ∧
    taskPriority .smart_balance 2 5 9 1 ≤ taskPriority .smart_balance 2 5 3 1 :=
  ⟨(composite_monotone .smart_balance 2 1 0 5 8 3 0 0).1 (by norm_num),
    (composite_monotone .smart_balance 2 1 5 0 0 0 3 9).2.1 (by norm_num)⟩

/-- Membership in an insertion. -/
theorem mem_insertByScore {x z : ScoredTask} :
    ∀ {l : List ScoredTask}, z ∈ insertByScore x l ↔ z = x ∨ z ∈ l := by
  intro l
  induction l with
  | nil => simp [insertByScore]
  | cons y ys ih =>
    unfold insertByScore
    split
    · simp [List.mem_cons]
    · simp only [List.mem_cons, ih]
      tauto

/-- Insertion preserves the descending-by-score pairwise order. -/
theorem pairwise_insertByScore {x : ScoredTask} {l : List ScoredTask}
    (hl : l.Pairwise (fun a b => b.priority_score ≤ a.priority_score)) :
    (insertByScore x l).Pairwise (fun a b => b.priority_score ≤ a.priority_score) := by
  induction l with
  | nil => simp [insertByScore]
  | cons y ys ih =>
    obtain ⟨hy, hys⟩ := List.pairwise_cons.mp hl
    unfold insertByScore
    split
    · rename_i hxy
      refine List.pairwise_cons.mpr ⟨?_, hl⟩
      intro z hz
      rcases List.mem_cons.mp hz with rfl | hz
      · exact hxy
      · exact le_trans (hy z hz) hxy
    · rename_i hxy
      push_neg at hxy
      refine List.pairwise_cons.mpr ⟨?_, ih hys⟩
      intro z hz
      rcases mem_insertByScore.mp hz with rfl | hz
      · exact le_of_lt hxy
      · exact hy z hz

/-- The ranker's output is pairwise descending in priority score. -/
theorem pairwise_rankDesc (l : List ScoredTask) :
    (rankDesc l).Pairwise (fun a b => b.priority_score ≤ a.priority_score) := by
  induction l with
  | nil => simp [rankDesc]
  | cons x xs ih => exact pairwise_insertByScore ih

/-- Inserting an element either prepends it to a score class or leaves the
class untouched: the elements skipped by the insertion all have strictly
greater scores. -/
theorem filter_insertByScore (x : ScoredTask) (c : ℚ) :
    ∀ l : List ScoredTask,
      (insertByScore x l).filter (fun st => decide (st.priority_score = c)) =
        if x.priority_score = c then
          x :: l.filter (fun st => decide (st.priority_score = c))
        else l.filter (fun st => decide (st.priority_score = c)) := by
  intro l
  induction l with
  | nil =>
    by_cases hx : x.priority_score = c <;>
      simp [insertByScore, List.filter, hx]
  | cons y ys ih =>
    unfold insertByScore
    split
    · rename_i hxy
      by_cases hx : x.priority_score = c <;> simp [List.filter_cons, hx]
    · rename_i hxy
      push_neg at hxy
      by_cases hx : x.priority_score = c
      · have hy : ¬y.priority_score = c := by
          rw [← hx]; exact ne_of_gt hxy
        simp [List.filter_cons, hx, hy, ih]
      · simp [List.filter_cons, hx, ih]

/-- Stability of the ranker: each priority-score class appears in the output
in exactly its input order. -/
theorem filter_rankDesc (c : ℚ) :
    ∀ l : List ScoredTask,
      (rankDesc l).filter (fun st => decide (st.priority_score = c)) =
        l.filter (fun st => decide (st.priority_score = c)) := by
  intro l
  induction l with
  | nil => rfl
  | cons x xs ih =>
    unfold rankDesc
    rw [filter_insertByScore]
    by_cases hx : x.priority_score = c <;> simp [List.filter_cons, hx, ih]

/-- C5: Analyze returns the scored tasks in descending order of composite
priority score, and the sort is stable — for every score value, the
subsequence of output tasks carrying that score equals the subsequence of
scored input tasks carrying that score, in input order. -/
theorem analyze_sorted_stable (tasks : List Task) (name : Option String)
    (s : Strategy) (out : List ScoredTask) (hs : resolveStrategy name = some s)
    (hok : analyze tasks name = .ok out) :
    out.Pairwise (fun a b => b.priority_score ≤ a.priority_score) ∧
    ∀ c : ℚ, out.filter (fun st => decide (st.priority_score = c)) =
      (tasks.map (scoreTask s tasks)).filter
        (fun st => decide (st.priority_score = c)) := by
  simp only [analyze, hs] at hok
  split at hok
  · exact absurd hok (by simp)
  · simp only [Except.ok.injEq] at hok
    subst hok
    exact ⟨pairwise_rankDesc _, fun c => filter_rankDesc c _⟩

/-- Witness for C5: the concrete set `demoTasks` (with a guaranteed tie)
under the default strategy. -/
theorem analyze_sorted_stable_witness :
    (rankDesc (demoTasks.map (scoreTask .smart_balance demoTasks))).Pairwise
      (fun a b => b.priority_score ≤ a.priority_score) ∧
    ∀ c : ℚ,
      (rankDesc (demoTasks.map (scoreTask .smart_balance demoTasks))).filter
          (fun st => decide (st.priority_score = c)) =
        (demoTasks.map (scoreTask .smart_balance demoTasks)).filter
          (fun st => decide (st.priority_score = c)) :=
  analyze_sorted_stable demoTasks (some "smart_balance") .smart_balance
    (rankDesc (demoTasks.map (scoreTask .smart_balance demoTasks))) rfl rfl

/-- A walk along dependency edges from `i` to `j` through the intermediate
nodes `ws`. -/
def Walk (tasks : List Task) : Int → List Int → Int → Prop
  | i, [], j => j ∈ adjacency tasks i
  | i, w :: ws, j => w ∈ adjacency tasks i ∧ Walk tasks w ws j

/-- `j` is reachable from `i` along at least one dependency edge;
`Reaches tasks i i` says `i` lies on a dependency cycle. -/
def Reaches (tasks : List Task) (i j : Int) : Prop :=
  ∃ ws, Walk tasks i ws j

/-- Bounded reachability only reports genuine walks. -/
theorem reachB_sound {tasks : List Task} :
    ∀ {fuel : Nat} {i j : Int}, reachB tasks fuel i j = true → Reaches tasks i j := by
  intro fuel
  induction fuel with
  | zero => intro i j h; simp [reachB] at h
  | succ n ih =>
    intro i j h
    simp only [reachB, List.any_eq_true, Bool.or_eq_true, beq_iff_eq] at h
    obtain ⟨k, hk, hkj | hkj⟩ := h
    · subst hkj; exact ⟨[], hk⟩
    · obtain ⟨ws, hw⟩ := ih hkj
      exact ⟨k :: ws, hk, hw⟩

/-- A walk of length below the fuel is found by bounded reachability. -/
theorem walk_reachB {tasks : List Task} :
    ∀ {ws : List Int} {i j : Int}, Walk tasks i ws j →
      ∀ {fuel : Nat}, ws.length < fuel → reachB tasks fuel i j = true := by
  intro ws
  induction ws with
  | nil =>
    intro i j hw fuel hf
    match fuel, hf with
    | fuel + 1, _ =>
      simp only [reachB, List.any_eq_true, Bool.or_eq_true, beq_iff_eq]
      exact ⟨j, hw, Or.inl rfl⟩
  | cons w ws ih =>
    intro i j hw fuel hf
    match fuel, hf with
    | fuel + 1, hf =>
      simp only [reachB, List.any_eq_true, Bool.or_eq_true, beq_iff_eq]
      refine ⟨w, hw.1, Or.inr ?_⟩
      exact ih hw.2 (by simpa using Nat.lt_of_succ_lt_succ hf)

/-- A list that is not duplicate-free splits around a repeated element. -/
theorem exists_dup_split {l : List Int} (h : ¬l.Nodup) :
    ∃ a x b c, l = a ++ x :: b ++ x :: c := by
  induction l with
  | nil => exact absurd List.nodup_nil h
  | cons y ys ih =>
    by_cases hy : y ∈ ys
    · obtain ⟨s, t, rfl⟩ := List.append_of_mem hy
      exact ⟨[], y, s, t, by simp⟩
    · have hys : ¬ys.Nodup := fun hn => h (List.nodup_cons.mpr ⟨hy, hn⟩)
      obtain ⟨a, x, b, c, rfl⟩ := ih hys
      exact ⟨y :: a, x, b, c, by simp⟩

/-- Dropping a walk prefix up to an occurrence of `x`. -/
theorem walk_drop {tasks : List Task} {x j : Int} :
    ∀ (a : List Int) {i : Int} {r : List Int},
      Walk tasks i (a ++ x :: r) j → Walk tasks x r j := by
  intro a
  induction a with
  | nil => intro i r h; exact h.2
  | cons y ys ih => intro i r h; exact ih h.2

/-- Replacing the tail of a walk after an occurrence of `x`. -/
theorem walk_replace {tasks : List Task} {x j : Int} :
    ∀ (a : List Int) {i : Int} {r r' : List Int},
      Walk tasks i (a ++ x :: r) j → Walk tasks x r' j →
      Walk tasks i (a ++ x :: r') j := by
  intro a
  induction a with
  | nil => intro i r r' h h'; exact ⟨h.1, h'⟩
  | cons y ys ih => intro i r r' h h'; exact ⟨h.1, ih h.2 h'⟩

/-- Adjacency lists only mention ids present in the task set. -/
theorem adjacency_subset {tasks : List Task} {i k : Int}
    (h : k ∈ adjacency tasks i) : k ∈ presentIds tasks := by
  unfold adjacency at h
  split at h
  · exact of_decide_eq_true (List.mem_filter.mp h).2
  · simp at h

/-- Every intermediate node of a walk is a present id. -/
theorem walk_subset {tasks : List Task} {j : Int} :
    ∀ {ws : List Int} {i : Int}, Walk tasks i ws j →
      ∀ w ∈ ws, w ∈ presentIds tasks := by
  intro ws
  induction ws with
  | nil => intro i _ w hw; simp at hw
  | cons y ys ih =>
    intro i h w hw
    rcases List.mem_cons.mp hw with rfl | hw
    · exact adjacency_subset h.1
    · exact ih h.2 w hw

/-- A duplicate-free walk has at most as many intermediate nodes as there
are tasks. -/
theorem nodup_walk_length {tasks : List Task} {j i : Int} {ws : List Int}
    (hw : Walk tasks i ws j) (hnd : ws.Nodup) : ws.length ≤ tasks.length := by
  have hsub : ∀ w ∈ ws, w ∈ presentIds tasks := walk_subset hw
  calc ws.length = ws.toFinset.card := (List.toFinset_card_of_nodup hnd).symm
    _ ≤ (presentIds tasks).toFinset.card := by
        apply Finset.card_le_card
        intro x hx
        exact List.mem_toFinset.mpr (hsub x (List.mem_toFinset.mp hx))
    _ ≤ (presentIds tasks).length := List.toFinset_card_le _
    _ = tasks.length := List.length_map _ _

/-- Completeness of bounded reachability at fuel `tasks.length + 1`: every
walk can be shortened below the fuel by cutting at repeated nodes. -/
theorem reaches_reachB {tasks : List Task} {i j : Int} (h : Reaches tasks i j) :
    reachB tasks (tasks.length + 1) i j = true := by
  obtain ⟨ws, hw⟩ := h
  have main : ∀ (n : Nat) (ws : List Int), ws.length ≤ n → Walk tasks i ws j →
      reachB tasks (tasks.length + 1) i j = true := by
    intro n
    induction n with
    | zero => intro ws hlen hw; exact walk_reachB hw (by omega)
    | succ n ih =>
      intro ws hlen hw
      by_cases hnd : ws.Nodup
      · exact walk_reachB hw (by have := nodup_walk_length hw hnd; omega)
      · obtain ⟨a, x, b, c, rfl⟩ := exists_dup_split hnd
        rw [List.append_assoc, List.cons_append] at hw
        have hx : Walk tasks x (b ++ x :: c) j := walk_drop a hw
        have hc : Walk tasks x c j := walk_drop b hx
        have hw' : Walk tasks i (a ++ x :: c) j := walk_replace a hw hc
        refine ih (a ++ x :: c) ?_ hw'
        simp only [List.length_append, List.length_cons] at hlen ⊢
        omega
  exact main ws.length ws le_rfl hw

/-- The cycle detector's verdict is exactly self-reachability. -/
theorem onCycle_iff {tasks : List Task} {i : Int} :
    onCycle tasks i = true ↔ Reaches tasks i i :=
  ⟨reachB_sound, reaches_reachB⟩

/-- The ranker permutes its input: membership is preserved. -/
theorem mem_rankDesc {st : ScoredTask} :
    ∀ {l : List ScoredTask}, st ∈ rankDesc l ↔ st ∈ l := by
  intro l
  induction l with
  | nil => simp [rankDesc]
  | cons x xs ih =>
    unfold rankDesc
    rw [mem_insertByScore, ih, List.mem_cons]

/-- C4: cycle detection flags exactly the tasks lying on a dependency
cycle (self-reachability through dependency edges): every scored task in a
successful Analyze result is flagged iff its id reaches itself; in the
three-task cycle 1 → 2 → 3 → 1 all tasks are flagged; in the acyclic chain
1 → 2 → 3 none are; and a task listing itself as a dependency is flagged
as a trivial one-node cycle. -/
theorem cycleDetection_spec :
    (∀ (tasks : List Task) (name : Option String) (out : List ScoredTask),
      analyze tasks name = .ok out →
      ∀ st ∈ out,
        (st.has_circular_dependency = true ↔ Reaches tasks st.task.id st.task.id)) ∧
    (cyc3Tasks.map (scoreTask .smart_balance cyc3Tasks)).all
      (fun st => st.has_circular_dependency) = true ∧
    (chain3Tasks.map (scoreTask .smart_balance chain3Tasks)).all
      (fun st => !st.has_circular_dependency) = true ∧
    (selfLoopTasks.map (scoreTask .smart_balance selfLoopTasks)).all
      (fun st => st.has_circular_dependency) = true := by
  refine ⟨?_, by decide, by decide, by decide⟩
  intro tasks name out hok st hst
  rcases hres : resolveStrategy name with _ | s
  · simp only [analyze, hres] at hok
    exact absurd hok (by simp)
  · simp only [analyze, hres] at hok
    split at hok
    · exact absurd hok (by simp)
    · simp only [Except.ok.injEq] at hok
      subst hok
      obtain ⟨t, ht, rfl⟩ := List.mem_map.mp (mem_rankDesc.mp hst)
      exact onCycle_iff

end TaskAnalyzer
